import Mathlib

/-!
Verification of `icons2fontaweswimm.py`, a build-time tool that turns a
directory of icon outline files into an icon font plus a demo HTML page and a
CSS stylesheet.

The shallow embedding below translates the Python source into Lean:
* JSON/Python values are the inductive `Value`; dicts are association lists in
  insertion order with unique keys (Python dict semantics).
* The fontforge font object is the record `Font`; `hasattr` is an explicit
  oracle `ha : String → Bool` (the attribute surface of the external library).
* `re.sub` with the fixed literal marker patterns is modelled by `reSub`:
  the subject is split at the leftmost non-overlapping occurrences of the
  pattern (`splitOnSub`) and rejoined with the replacement; Python processes
  backslash escapes in the replacement string, modelled by `processRepl`.
* Fallible Python code (TypeError/KeyError/ValueError/file errors) returns
  `Option`.
All recursions are structural (fuel where needed) so every definition
evaluates by `rfl`/`decide` on concrete inputs.
-/

/-- A Python/JSON value as it occurs in the configuration file and the font
object.  JSON numbers are modelled as integers; no claim depends on numeric
values.  `vTuple` is the Python tuple produced by the source's
`tuple(value)` conversion of list-valued properties. -/
inductive Value where
  | vStr (s : String)
  | vInt (n : Int)
  | vBool (b : Bool)
  | vNull
  | vList (xs : List Value)
  | vTuple (xs : List Value)
  | vObj (fields : List (String × Value))

/-- The loaded configuration, as destructured by the source:
`config['props']` (a dict, kept in insertion order with unique keys),
`config.get('sfnt_names', [])` (absent key modelled as `[]`, matching the
`.get` default), and `config['output_fonts']`, where `none` models a missing
key — accessing it raises `KeyError` in Python. -/
structure Config where
  props : List (String × Value)
  sfnt_names : List Value
  output_fonts : Option (List String)

/-- One glyph slot of the font, as filled by `add_font_glyphs`:
`font.createMappedChar(code)` followed by
`char.importOutlines(str(icon_path), IMPORT_OPTIONS)`, `char.removeOverlap()`
(pure outline geometry, delegated to fontforge) and
`char.glyphname = Path(icon_path).stem`. -/
structure GlyphSlot where
  codepoint : Nat
  importedFrom : String
  importOptions : List String
  glyphname : String

/-- The fontforge font object, restricted to the state this program writes:
the four attributes the source assigns by name, the remaining native
attributes set through `setattr` (`attrs`), the SFNT name-table entries
appended by the props loop (`sfnt`) and verbatim from `sfnt_names`
(`sfntRaw`), and the glyph slots. -/
structure Font where
  encoding : Option Value := none
  familyname : Option Value := none
  fontname : Option Value := none
  fullname : Option Value := none
  attrs : List (String × Value) := []
  sfnt : List (Value × String × Value) := []
  sfntRaw : List Value := []
  chars : List GlyphSlot := []

/-- `fontforge.font()`: a fresh font object (only fields this program writes
are modelled). -/
def emptyFont : Font := {}

/-- Dict membership lookup: first value stored under key `k` (Python dicts
have unique keys, so first = only). -/
def lookupKey (k : String) : List (String × Value) → Option Value
  | [] => none
  | kv :: rest => if kv.1 = k then some kv.2 else lookupKey k rest

/-- `d.pop(k, default)`: returns the stored value (if any) and the dict with
that key destructively removed.  This models the in-place mutation of
`config['props']` performed by `set_font_properties`. -/
def popKey (k : String) : List (String × Value) → Option Value × List (String × Value)
  | [] => (none, [])
  | kv :: rest =>
    if kv.1 = k then (some kv.2, rest)
    else
      let r := popKey k rest
      (r.1, kv :: r.2)

/- ## Constants of the source file -/

def INITIAL_UTF_GARBAGE_VALUE : Nat := 0xE900

def IMPORT_OPTIONS : List String := ["removeoverlap", "correctdir"]

def DEFAULT_LANGUAGE : String := "English (US)"

def DEFAULT_STYLE : String := "Regular"

def FONT_DIR_NAME : String := "fonts"

def DEMO_FILE_NAME : String := "demo.html"

def STYLE_FILE_NAME : String := "style.css"

/-- The literal marker `{{ NUMBER_OF_GLYPHS }}` (a Python raw string used as a
regex pattern; it contains no active regex constructs, so it matches
literally). -/
def REGEX_NUMBER_OF_GLYPHS : String := "\x7b\x7b NUMBER_OF_GLYPHS \x7d\x7d"

/-- The literal marker `{{ GLYPH_LIST }}`. -/
def REGEX_GLYPH_LIST : String := "\x7b\x7b GLYPH_LIST \x7d\x7d"

/-- The literal marker `{{ STYLE_LIST }}`. -/
def REGEX_STYLE_LIST : String := "\x7b\x7b STYLE_LIST \x7d\x7d"

/- ## Python number rendering and parsing -/

/-- Digits of `n` in base `b` (most significant first), lowercase letters for
values 10..15 via `Nat.digitChar` — exactly the digit alphabet of Python's
`hex()` and `str()`.  `fuel ≥ n` makes the recursion structural. -/
def toDigitsAux (b : Nat) : Nat → Nat → List Char
  | 0, n => [Nat.digitChar n]
  | fuel + 1, n => if n < b then [Nat.digitChar n] else toDigitsAux b fuel (n / b) ++ [Nat.digitChar (n % b)]

/-- Digit string of `n` in base `b` (most significant first). -/
def toDigitsBase (b n : Nat) : List Char := toDigitsAux b n n

/-- Python `str(hex(n))` for a natural number: `0x` followed by lowercase hex
digits. -/
def pyHex (n : Nat) : String := "0x" ++ String.mk (toDigitsBase 16 n)

/-- Python `str(n)` for a natural number: decimal digits. -/
def pyStr (n : Nat) : String := String.mk (toDigitsBase 10 n)

/-- Value of one hex digit (both cases), as accepted by Python's `int(·, 16)`. -/
def hexVal (c : Char) : Option Nat :=
  if '0' ≤ c ∧ c ≤ '9' then some (c.toNat - '0'.toNat)
  else if 'a' ≤ c ∧ c ≤ 'f' then some (c.toNat - 'a'.toNat + 10)
  else if 'A' ≤ c ∧ c ≤ 'F' then some (c.toNat - 'A'.toNat + 10)
  else none

/-- Accumulating hex-digit parser (`none` propagates a bad digit). -/
def parseHexAux (acc : Nat) : List Char → Option Nat
  | [] => some acc
  | c :: rest => (hexVal c).bind fun d => parseHexAux (acc * 16 + d) rest

/-- Value of one decimal digit. -/
def decVal (c : Char) : Option Nat :=
  if '0' ≤ c ∧ c ≤ '9' then some (c.toNat - '0'.toNat) else none

/-- Accumulating decimal-digit parser. -/
def parseDecAux (acc : Nat) : List Char → Option Nat
  | [] => some acc
  | c :: rest => (decVal c).bind fun d => parseDecAux (acc * 10 + d) rest

/-- Python `int(s, base=0)` restricted to the literal forms this program can
feed it: a `0x`/`0X`-prefixed hex literal or a plain decimal literal without
a forbidden leading zero.  (Signs, underscores, whitespace and the `0o`/`0b`
prefixes never occur in the glyph dict keys built by `get_glyphs`.) -/
def pyIntBase0 (s : String) : Option Nat :=
  match s.toList with
  | '0' :: 'x' :: c :: rest => parseHexAux 0 (c :: rest)
  | '0' :: 'X' :: c :: rest => parseHexAux 0 (c :: rest)
  | '0' :: [] => some 0
  | c :: rest => if c = '0' then none else parseDecAux 0 (c :: rest)
  | [] => none

/- ## pathlib: name and stem -/

/-- `Path(p).name`: the final path component (text after the last `/`). -/
def pathName (p : String) : String :=
  String.mk (p.toList.foldl (fun acc c => if c = '/' then [] else acc ++ [c]) [])

/-- Index of the last `.` in a character list (Python `str.rfind`), `none`
when absent. -/
def rfindDot (cs : List Char) : Option Nat :=
  ((cs.enum.filter fun ic => ic.2 = '.').map Prod.fst).getLast?

/-- `Path(p).stem`: the final component without its suffix.  pathlib strips
the text from the last dot only when that dot is neither the first nor the
last character of the name. -/
def pathStem (p : String) : String :=
  let cs := (pathName p).toList
  match rfindDot cs with
  | none => String.mk cs
  | some i => if 0 < i ∧ i < cs.length - 1 then String.mk (cs.take i) else String.mk cs

/-- `utf_code[len('0x'):]`: the key with its first two characters removed. -/
def stripOx (s : String) : String := String.mk (s.toList.drop 2)

/- ## re.sub with a literal pattern -/

/-- True iff `pat` occurs as a contiguous sublist of `s` (the test
`re.search` would perform for these literal patterns). -/
def containsSub (pat : List Char) : List Char → Bool
  | [] => pat.isEmpty
  | c :: rest => pat.isPrefixOf (c :: rest) || containsSub pat rest

/-- Split `s` at the leftmost non-overlapping occurrences of `pat` — the
decomposition `re.sub` performs.  `fuel ≥ s.length` keeps the recursion
structural; each step consumes at least one character. -/
def splitOnSubF (pat : List Char) : Nat → List Char → List (List Char)
  | _, [] => [[]]
  | 0, s => [s]
  | fuel + 1, c :: rest =>
    if pat ≠ [] ∧ pat.isPrefixOf (c :: rest) then
      [] :: splitOnSubF pat fuel ((c :: rest).drop pat.length)
    else
      match splitOnSubF pat fuel rest with
      | [] => [[c]]
      | p :: ps => (c :: p) :: ps

/-- Split `s` at the occurrences of `pat` (adequate fuel supplied). -/
def splitOnSub (pat s : List Char) : List (List Char) := splitOnSubF pat s.length s

/-- Join pieces with a separator (`sep.join(pieces)`). -/
def joinWith (sep : List Char) : List (List Char) → List Char
  | [] => []
  | [x] => x
  | x :: y :: xs => x ++ sep ++ joinWith sep (y :: xs)

/-- Python's processing of backslash escapes in a `re.sub` replacement
string: `\\` denotes a single backslash.  A backslash followed by any other
character is kept as written; the only escape sequence occurring in the
replacement strings this program builds is `\\` (from `TEMPLATED_CSS`), so
the other Python escape expansions are never exercised. -/
def processRepl : List Char → List Char
  | [] => []
  | [c] => [c]
  | c :: d :: rest =>
    if c = '\\' then
      if d = '\\' then c :: processRepl rest
      else c :: d :: processRepl rest
    else c :: processRepl (d :: rest)

/-- `re.sub(pat, repl, s)` for the literal marker patterns of this program:
every occurrence of `pat` in `s` is replaced by `repl` with its backslash
escapes processed. -/
def reSub (pat repl s : String) : String :=
  String.mk (joinWith (processRepl repl.toList) (splitOnSub pat.toList s.toList))

/-- `'\n'.join` over strings. -/
def joinWithS (sep : String) (xs : List String) : String :=
  String.mk (joinWith sep.toList (xs.map String.toList))

/- ## The glyph enumerator -/

/-- Lexicographic order on character lists by code point — Python's string
comparison. -/
def lexLe : List Char → List Char → Bool
  | [], _ => true
  | _ :: _, [] => false
  | a :: as, b :: bs => if a < b then true else if a = b then lexLe as bs else false

/-- Python's `s1 <= s2` on strings: code-point lexicographic. -/
def strLe (a b : String) : Prop := lexLe a.toList b.toList = true

instance : DecidableRel strLe := fun a b => instDecidableEqBool (lexLe a.toList b.toList) true

/-- Ascending sort of the directory listing: `sorted(icon_dir.iterdir())`.
For children of one directory, `pathlib` path comparison is string comparison
of the entry names (code-point order, as in Python); `sorted` produces the
ascending ordering of that total order. -/
def sortIcons (l : List String) : List String := List.insertionSort strLe l

/-- The loop body of `get_glyphs`: starting from counter value `k`, pair each
icon with `str(hex(counter))` and its absolute path, incrementing the
counter. -/
def getGlyphsAux (absl : String → String) (k : Nat) : List String → List (String × String)
  | [] => []
  | icon :: rest => (pyHex k, absl icon) :: getGlyphsAux absl (k + 1) rest

/-- `get_glyphs(icon_dir)`: a dict (insertion-ordered association list) from
UTF code string to icon path.  `listing` is the directory's entries and
`absl` models `Path.absolute` (prefixing the working directory). -/
def get_glyphs (absl : String → String) (listing : List String) : List (String × String) :=
  getGlyphsAux absl INITIAL_UTF_GARBAGE_VALUE (sortIcons listing)

/- ## The configuration loader -/

/-- `load_config`: `json.loads(base_conf_path.read_text())`.  `readText`
models the filesystem read at a path (`none` = missing/unreadable file) and
`parseJson` the external JSON parser (`none` = not well-formed).  The parsed
value is returned as-is: no schema validation. -/
def load_config (readText : String → Option String) (parseJson : String → Option Value)
    (base_conf_path : String) : Option Value :=
  (readText base_conf_path).bind parseJson

/- ## The font assembler -/

/-- The source's `tuple(value)` conversion applied to list-valued
properties before `setattr`. -/
def pyToTuple : Value → Value
  | .vList xs => .vTuple xs
  | v => v

/-- One iteration of the props loop: `setattr(font, key, value)` when
`hasattr(font, key)` (the four modelled named attributes are routed to their
fields, the rest to `attrs`), else
`font.appendSFNTName(lang, key, value)`. -/
def applyProp (ha : String → Bool) (lang : Value) (fo : Font) (k : String) (v : Value) : Font :=
  if ha k then
    let v' := pyToTuple v
    if k = "encoding" then { fo with encoding := some v' }
    else if k = "familyname" then { fo with familyname := some v' }
    else if k = "fontname" then { fo with fontname := some v' }
    else if k = "fullname" then { fo with fullname := some v' }
    else { fo with attrs := fo.attrs ++ [(k, v')] }
  else { fo with sfnt := fo.sfnt ++ [(lang, k, v)] }

/-- The `if family is not None` block: set `familyname`, derive
`fontname = family + '-' + style` and `fullname = family + ' ' + style`.
Python string concatenation raises `TypeError` unless both operands are
strings, hence `none` for a non-null non-string family or a non-string
style. -/
def derive_names (fo : Font) (family style : Value) : Option Font :=
  match family with
  | .vNull => some fo
  | .vStr fam =>
    match style with
    | .vStr st =>
      some { fo with familyname := some (.vStr fam),
                     fontname := some (.vStr (fam ++ "-" ++ st)),
                     fullname := some (.vStr (fam ++ " " ++ st)) }
    | _ => none
  | _ => none

/-- `set_font_properties(font, config)`.  Note the destructive reads: the
four `props.pop(...)` calls mutate `config['props']` in place, so the
returned configuration carries the reduced props dict. -/
def set_font_properties (ha : String → Bool) (font : Font) (cfg : Config) :
    Option (Font × Config) :=
  let r1 := popKey "lang" cfg.props
  let lang := r1.1.getD (.vStr DEFAULT_LANGUAGE)
  let r2 := popKey "family" r1.2
  let family := r2.1.getD .vNull
  let r3 := popKey "style" r2.2
  let style := r3.1.getD (.vStr DEFAULT_STYLE)
  let r4 := popKey "encoding" r3.2
  let encoding := r4.1.getD (.vStr "UnicodeFull")
  let f0 : Font := { font with encoding := some encoding }
  (derive_names f0 family style).map fun f1 =>
    let f2 := r4.2.foldl (fun fo kv => applyProp ha lang fo kv.1 kv.2) f1
    let f3 := { f2 with sfntRaw := f2.sfntRaw ++ cfg.sfnt_names }
    (f3, { cfg with props := r4.2 })

/-- `add_font_glyphs(font, glyphs)`: for each dict entry, create the mapped
char at `int(utf_code, base=0)` (`ValueError` on an unparsable key gives
`none`), import the outlines with the fixed `IMPORT_OPTIONS`, and name the
glyph after the icon file's stem. -/
def add_font_glyphs (font : Font) : List (String × String) → Option Font
  | [] => some font
  | (utf_code, icon_path) :: rest =>
    match pyIntBase0 utf_code with
    | none => none
    | some code =>
      add_font_glyphs
        { font with chars := font.chars ++
            [{ codepoint := code, importedFrom := icon_path,
               importOptions := IMPORT_OPTIONS, glyphname := pathStem icon_path }] }
        rest

/-- `initialize_font(config, glyphs)`: fresh font, properties applied, glyphs
added.  The mutated configuration is threaded through. -/
def initialize_font (ha : String → Bool) (cfg : Config) (glyphs : List (String × String)) :
    Option (Font × Config) :=
  (set_font_properties ha emptyFont cfg).bind fun fc =>
    (add_font_glyphs fc.1 glyphs).map fun f' => (f', fc.2)

/- ## The template renderer -/

/-- One formatted `TEMPLATED_HTML` fragment:
`TEMPLATED_HTML.format(glyph_name=…, utf_code=…)`.  The glyph name appears
twice, the code once as the literal input value and once as the numeric
character reference `&#x…;`. -/
def formatTemplatedHtml (glyph_name utf_code : String) : String :=
  "\n      <div class=\"glyph fs1\">\n        <div class=\"clearfix bshadow0 pbs\">\n          <span class=\"" ++
  ("icon-" ++ glyph_name) ++
  "\"></span>\n          <span class=\"mls\"> " ++
  ("icon-" ++ glyph_name) ++
  "</span>\n        </div>\n        <fieldset class=\"fs0 size1of1 clearfix hidden-false\">\n          <input type=\"text\" readonly " ++
  ("value=\"" ++ utf_code ++ "\"") ++
  " class=\"unit size1of2\" />\n          <input\n            type=\"text\"\n            maxlength=\"1\"\n            readonly\n            value=\"" ++
  ("&#x" ++ utf_code ++ ";") ++
  "\"\n            class=\"unitRight size1of2 talign-right\"\n          />\n        </fieldset>\n        <div class=\"fs0 bshadow0 clearfix hidden-true\">\n          <span class=\"unit pvs fgc1\">liga: </span>\n          <input type=\"text\" readonly value=\"\" class=\"liga unitRight\" />\n        </div>\n      </div>\n"

/-- One formatted `TEMPLATED_CSS` fragment, before `re.sub` escape
processing: the Python template literal holds two backslash characters
(`"\\\\"` in the source) in front of the code. -/
def formatTemplatedCss (glyph_name utf_code : String) : String :=
  "\n.icon-" ++ glyph_name ++ ":before \x7b\n  content: \"" ++ "\\\\" ++ utf_code ++ "\";\n\x7d\n"

/-- The same CSS fragment as it reaches the output file: `re.sub` collapses
the `\\` escape in the replacement to a single backslash, yielding the CSS
escape `\e900`. -/
def cookedCssFragment (glyph_name utf_code : String) : String :=
  "\n.icon-" ++ glyph_name ++ ":before \x7b\n  content: \"" ++ "\\" ++ utf_code ++ "\";\n\x7d\n"

/-- The `div_list` built by `generate_demo_html`: one fragment per glyph, in
dict iteration order, from the icon's stem and `0x`-stripped code. -/
def div_list (glyphs : List (String × String)) : List String :=
  glyphs.map fun kv => formatTemplatedHtml (pathStem kv.2) (stripOx kv.1)

/-- The `classes_list` built by `generate_style_css`. -/
def classes_list (glyphs : List (String × String)) : List String :=
  glyphs.map fun kv => formatTemplatedCss (pathStem kv.2) (stripOx kv.1)

/-- `generate_demo_html`, from template text to output text: substitute the
glyph count for `{{ NUMBER_OF_GLYPHS }}`, then the joined fragments for
`{{ GLYPH_LIST }}`. -/
def generate_demo_html (template : String) (glyphs : List (String × String)) : String :=
  let raw1 := reSub REGEX_NUMBER_OF_GLYPHS (pyStr glyphs.length) template
  reSub REGEX_GLYPH_LIST (joinWithS "\n" (div_list glyphs)) raw1

/-- `generate_style_css`, from template text to output text. -/
def generate_style_css (template : String) (glyphs : List (String × String)) : String :=
  reSub REGEX_STYLE_LIST (joinWithS "\n" (classes_list glyphs)) template

/- ## The orchestrator -/

/-- The artifacts of one run: rendered font file paths (relative to the
output root), the demo page text and the stylesheet text. -/
structure PipelineResult where
  fontFiles : List String
  demoHtml : String
  styleCss : String

/-- `main` after argument parsing and config loading, with the external
renders abstracted to their target paths: glyph enumeration, font
initialization, the `config['output_fonts']` render loop (a missing key
raises `KeyError`, aborting before the demo/CSS phases), then demo HTML and
stylesheet generation. -/
def mainPipeline (ha : String → Bool) (absl : String → String)
    (htmlTemplate cssTemplate : String) (cfg : Config) (listing : List String) :
    Option PipelineResult :=
  let glyphs := get_glyphs absl listing
  (initialize_font ha cfg glyphs).bind fun _fc =>
    match cfg.output_fonts with
    | none => none
    | some outs =>
      some { fontFiles := outs.map fun o => FONT_DIR_NAME ++ "/" ++ o,
             demoHtml := generate_demo_html htmlTemplate glyphs,
             styleCss := generate_style_css cssTemplate glyphs }

/- ## Auxiliary predicates used in theorem statements -/

/-- No backslash occurs in the string (true of every hex code and of ordinary
icon file stems; a backslash in a stem would change the `re.sub` replacement
escape processing). -/
def noBS (s : String) : Bool := s.toList.all fun c => c ≠ '\\'

/-- The lowercase hex alphabet produced by Python's `hex()`. -/
def isLowerHexDigit (c : Char) : Bool :=
  ('0' ≤ c ∧ c ≤ '9') ∨ ('a' ≤ c ∧ c ≤ 'f')

/-- Keys of an association list are pairwise distinct (always true of a dict
loaded from JSON). -/
def keysNodup (l : List (String × Value)) : Prop := (l.map Prod.fst).Nodup

/- ## Theorems.  First, arithmetic facts about the digit rendering. -/

theorem hexVal_digitChar : ∀ m, m < 16 → hexVal (Nat.digitChar m) = some m := by decide

theorem toDigitsAux_ne_nil (b fuel n : Nat) : toDigitsAux b fuel n ≠ [] := by
  cases fuel with
  | zero => simp [toDigitsAux]
  | succ f =>
    simp only [toDigitsAux]
    split <;> simp

theorem parseHexAux_append (xs : List Char) :
    ∀ (acc : Nat) (ys : List Char),
      parseHexAux acc (xs ++ ys) = (parseHexAux acc xs).bind fun a => parseHexAux a ys := by
  induction xs with
  | nil => intro acc ys; simp [parseHexAux]
  | cons c rest ih =>
    intro acc ys
    simp only [List.cons_append, parseHexAux]
    cases hexVal c with
    | none => simp
    | some d => simpa using ih (acc * 16 + d) ys

theorem parseHexAux_toDigitsAux :
    ∀ (fuel n : Nat), n ≤ fuel → ∀ acc,
      parseHexAux acc (toDigitsAux 16 fuel n) =
        some (acc * 16 ^ (toDigitsAux 16 fuel n).length + n) := by
  intro fuel
  induction fuel with
  | zero =>
    intro n hn acc
    interval_cases n
    simp [toDigitsAux, parseHexAux, hexVal_digitChar 0 (by norm_num)]
  | succ f ih =>
    intro n hn acc
    by_cases h : n < 16
    · simp only [toDigitsAux, if_pos h]
      simp [parseHexAux, hexVal_digitChar n h]
    · simp only [toDigitsAux, if_neg h]
      have hdiv : n / 16 ≤ f := by
        have : n / 16 < n := Nat.div_lt_self (by omega) (by omega)
        omega
      rw [parseHexAux_append, ih (n / 16) hdiv acc]
      have hm : n % 16 < 16 := Nat.mod_lt _ (by omega)
      simp only [Option.some_bind, parseHexAux, hexVal_digitChar _ hm, Option.some_bind,
        List.length_append, List.length_singleton]
      have hnm : 16 * (n / 16) + n % 16 = n := Nat.div_add_mod n 16
      have : (acc * 16 ^ (toDigitsAux 16 f (n / 16)).length + n / 16) * 16 + n % 16 =
          acc * 16 ^ ((toDigitsAux 16 f (n / 16)).length + 1) + (16 * (n / 16) + n % 16) := by
        ring
      rw [this, hnm]

theorem pyIntBase0_pyHex (n : Nat) : pyIntBase0 (pyHex n) = some n := by
  have h := parseHexAux_toDigitsAux n n le_rfl 0
  rw [zero_mul, zero_add] at h
  cases hd : toDigitsAux 16 n n with
  | nil => exact absurd hd (toDigitsAux_ne_nil 16 n n)
  | cons c rest =>
    rw [hd] at h
    show pyIntBase0 ("0x" ++ String.mk (toDigitsAux 16 n n)) = some n
    rw [hd]
    exact h

theorem pyHex_injective : Function.Injective pyHex := by
  intro a b hab
  have ha := pyIntBase0_pyHex a
  rw [hab, pyIntBase0_pyHex b] at ha
  exact (Option.some.inj ha).symm

/- ## Python string order: transitivity and totality of `lexLe` -/

theorem lexLe_cons_iff (x y : Char) (xs ys : List Char) :
    lexLe (x :: xs) (y :: ys) = true ↔ x < y ∨ (x = y ∧ lexLe xs ys = true) := by
  simp only [lexLe]
  split_ifs with h1 h2
  · simp [h1]
  · simp [h1, h2]
  · simp [h1, h2]

theorem lexLe_trans :
    ∀ (a b c : List Char), lexLe a b = true → lexLe b c = true → lexLe a c = true := by
  intro a
  induction a with
  | nil => intro b c _ _; simp [lexLe]
  | cons x xs ih =>
    intro b c hab hbc
    cases b with
    | nil => simp [lexLe] at hab
    | cons y ys =>
      cases c with
      | nil => simp [lexLe] at hbc
      | cons z zs =>
        rw [lexLe_cons_iff] at hab hbc ⊢
        rcases hab with h1 | ⟨h1, h1'⟩ <;> rcases hbc with h2 | ⟨h2, h2'⟩
        · exact Or.inl (lt_trans h1 h2)
        · exact Or.inl (h2 ▸ h1)
        · exact Or.inl (h1 ▸ h2)
        · exact Or.inr ⟨h1.trans h2, ih ys zs h1' h2'⟩

theorem lexLe_total : ∀ (a b : List Char), lexLe a b = true ∨ lexLe b a = true := by
  intro a
  induction a with
  | nil => intro b; left; simp [lexLe]
  | cons x xs ih =>
    intro b
    cases b with
    | nil => right; simp [lexLe]
    | cons y ys =>
      rcases lt_trichotomy x y with h | h | h
      · left; rw [lexLe_cons_iff]; exact Or.inl h
      · rcases ih ys with h' | h'
        · left; rw [lexLe_cons_iff]; exact Or.inr ⟨h, h'⟩
        · right; rw [lexLe_cons_iff]; exact Or.inr ⟨h.symm, h'⟩
      · right; rw [lexLe_cons_iff]; exact Or.inl h

/- ## The glyph enumerator: structure of the produced mapping -/

theorem getGlyphsAux_eq_zip (absl : String → String) :
    ∀ (l : List String) (k : Nat),
      getGlyphsAux absl k l = ((List.range' k l.length).map pyHex).zip (l.map absl) := by
  intro l
  induction l with
  | nil => intro k; simp [getGlyphsAux]
  | cons icon rest ih =>
    intro k
    simp only [getGlyphsAux, List.length_cons, List.range'_succ, List.map_cons,
      List.zip_cons_cons, ih (k + 1)]

theorem get_glyphs_eq_zip (absl : String → String) (D : List String) :
    get_glyphs absl D =
      ((List.range' INITIAL_UTF_GARBAGE_VALUE (sortIcons D).length).map pyHex).zip
        ((sortIcons D).map absl) :=
  getGlyphsAux_eq_zip absl (sortIcons D) INITIAL_UTF_GARBAGE_VALUE

theorem sortIcons_perm (D : List String) : (sortIcons D).Perm D :=
  List.perm_insertionSort strLe D

theorem sortIcons_sorted (D : List String) : List.Sorted strLe (sortIcons D) := by
  haveI : IsTotal String strLe :=
    ⟨fun a b => by
      rcases lexLe_total a.toList b.toList with h | h
      · exact Or.inl h
      · exact Or.inr h⟩
  haveI : IsTrans String strLe :=
    ⟨fun a b c hab hbc => lexLe_trans a.toList b.toList c.toList hab hbc⟩
  exact List.sorted_insertionSort strLe D

theorem get_glyphs_keys (absl : String → String) (D : List String) :
    (get_glyphs absl D).map Prod.fst =
      (List.range' INITIAL_UTF_GARBAGE_VALUE D.length).map pyHex := by
  rw [get_glyphs_eq_zip, List.map_fst_zip, (sortIcons_perm D).length_eq]
  simp

/-- C1: for every icon directory listing `D` with `N` entries, `get_glyphs`
assigns the code points `0xE900, 0xE900+1, …, 0xE900+N-1` in one-to-one
correspondence with `D` sorted ascending by name — the mapping is exactly the
zip of the contiguous code-point strings with the sorted listing, the keys
are pairwise distinct, and rerunning on an unchanged listing yields the
identical mapping. -/
theorem C1_glyph_enumerator (absl : String → String) (D : List String) :
    get_glyphs absl D =
      ((List.range' INITIAL_UTF_GARBAGE_VALUE (sortIcons D).length).map pyHex).zip
        ((sortIcons D).map absl)
    ∧ List.Sorted strLe (sortIcons D)
    ∧ (sortIcons D).Perm D
    ∧ (get_glyphs absl D).map Prod.fst =
        (List.range' INITIAL_UTF_GARBAGE_VALUE D.length).map pyHex
    ∧ ((get_glyphs absl D).map Prod.fst).Nodup
    ∧ (∀ D' : List String, D' = D → get_glyphs absl D' = get_glyphs absl D) := by
  refine ⟨get_glyphs_eq_zip absl D, sortIcons_sorted D, sortIcons_perm D,
    get_glyphs_keys absl D, ?_, fun D' h => h ▸ rfl⟩
  rw [get_glyphs_keys]
  exact (List.nodup_range' _ _).map pyHex_injective

/-- Witness for C1 at the spec's own example listing `home.svg`, `user.svg`
(given unsorted): `home.svg` gets `0xe900`, `user.svg` gets `0xe901`, and a
rerun is identical. -/
theorem C1_glyph_enumerator_witness :
    get_glyphs (fun s => "/work/icons/" ++ s) ["user.svg", "home.svg"] =
      [("0xe900", "/work/icons/home.svg"), ("0xe901", "/work/icons/user.svg")]
    ∧ get_glyphs (fun s => "/work/icons/" ++ s) ["user.svg", "home.svg"] =
        get_glyphs (fun s => "/work/icons/" ++ s) ["user.svg", "home.svg"] :=
  ⟨((C1_glyph_enumerator (fun s => "/work/icons/" ++ s) ["user.svg", "home.svg"]).1).trans
      (by decide),
    (C1_glyph_enumerator (fun s => "/work/icons/" ++ s) ["user.svg", "home.svg"]).2.2.2.2.2
      ["user.svg", "home.svg"] rfl⟩

/- ## String plumbing -/

theorem str_toList_append (a b : String) : (a ++ b).toList = a.toList ++ b.toList := rfl

theorem str_mk_append (x y : List Char) : String.mk (x ++ y) = String.mk x ++ String.mk y := rfl

theorem str_mk_toList (s : String) : String.mk s.toList = s := rfl

theorem noBS_iff (s : String) : noBS s = true ↔ ∀ c ∈ s.toList, c ≠ '\\' := by
  simp [noBS]

theorem noBS_append (a b : String) : noBS (a ++ b) = (noBS a && noBS b) := by
  simp [noBS, str_toList_append, List.all_append]

/- ## List prefix facts for the literal-pattern matcher -/

theorem isPrefixOf_append_drop :
    ∀ (pat s : List Char), pat.isPrefixOf s = true → pat ++ s.drop pat.length = s := by
  intro pat
  induction pat with
  | nil => intro s _; simp
  | cons a as ih =>
    intro s hp
    cases s with
    | nil => simp [List.isPrefixOf] at hp
    | cons b bs =>
      simp only [List.isPrefixOf, Bool.and_eq_true, beq_iff_eq] at hp
      obtain ⟨rfl, hp'⟩ := hp
      simpa using ih bs hp'

theorem isPrefixOf_self_append : ∀ (pat t : List Char), pat.isPrefixOf (pat ++ t) = true := by
  intro pat
  induction pat with
  | nil => intro t; simp [List.isPrefixOf]
  | cons a as ih => intro t; simp [List.isPrefixOf, ih]

theorem isPrefixOf_extend (pat u t : List Char) (h : pat.isPrefixOf u = true) :
    pat.isPrefixOf (u ++ t) = true := by
  have hu := isPrefixOf_append_drop pat u h
  rw [← hu, List.append_assoc]
  exact isPrefixOf_self_append pat _

theorem containsSub_of_parts (pat x y s : List Char) (h : s = x ++ (pat ++ y)) :
    containsSub pat s = true := by
  subst h
  induction x with
  | nil =>
    cases hp : pat ++ y with
    | nil =>
      have : pat = [] := by
        rcases List.append_eq_nil.mp hp with ⟨h1, _⟩
        exact h1
      simp [containsSub, this]
    | cons c rest =>
      simp [containsSub, ← hp, isPrefixOf_self_append]
  | cons c cs ih =>
    simp [containsSub, ih]

/- ## splitOnSub: the decomposition performed by re.sub -/

theorem splitOnSubF_ne_nil (pat : List Char) :
    ∀ (fuel : Nat) (s : List Char), splitOnSubF pat fuel s ≠ [] := by
  intro fuel s
  match fuel, s with
  | _, [] => simp [splitOnSubF]
  | 0, c :: rest => simp [splitOnSubF]
  | f + 1, c :: rest =>
    simp only [splitOnSubF]
    split
    · simp
    · cases h : splitOnSubF pat f rest with
      | nil => simp
      | cons p ps => simp

theorem joinWith_cons_head (sep : List Char) (c : Char) (p : List Char) (ps : List (List Char)) :
    joinWith sep ((c :: p) :: ps) = c :: joinWith sep (p :: ps) := by
  cases ps with
  | nil => simp [joinWith]
  | cons q qs => simp [joinWith]

theorem joinWith_pair (sep x y : List Char) : joinWith sep [x, y] = x ++ sep ++ y := by
  simp [joinWith]

theorem joinWith_head_append (sep : List Char) (p : List Char) (ps : List (List Char)) :
    ∃ t, joinWith sep (p :: ps) = p ++ t := by
  cases ps with
  | nil => exact ⟨[], by simp [joinWith]⟩
  | cons q qs => exact ⟨sep ++ joinWith sep (q :: qs), by simp [joinWith]⟩

theorem joinWith_splitOnSubF (pat : List Char) :
    ∀ (fuel : Nat) (s : List Char), s.length ≤ fuel →
      joinWith pat (splitOnSubF pat fuel s) = s := by
  intro fuel
  induction fuel with
  | zero =>
    intro s hs
    cases s with
    | nil => simp [splitOnSubF, joinWith]
    | cons c rest => simp at hs
  | succ f ih =>
    intro s hs
    cases s with
    | nil => simp [splitOnSubF, joinWith]
    | cons c rest =>
      simp only [splitOnSubF]
      split
      · rename_i hcond
        obtain ⟨hne, hpre⟩ := hcond
        have hlen : ((c :: rest).drop pat.length).length ≤ f := by
          have h1 : 1 ≤ pat.length := by
            cases pat with
            | nil => exact absurd rfl hne
            | cons _ _ => simp
          simp only [List.length_drop, List.length_cons]
          simp only [List.length_cons] at hs
          omega
        cases hsp : splitOnSubF pat f ((c :: rest).drop pat.length) with
        | nil => exact absurd hsp (splitOnSubF_ne_nil pat f _)
        | cons p ps =>
          rw [show joinWith pat ([] :: p :: ps) = pat ++ joinWith pat (p :: ps) by
            simp [joinWith]]
          rw [← hsp, ih _ hlen]
          exact isPrefixOf_append_drop pat (c :: rest) hpre
      · cases hsp : splitOnSubF pat f rest with
        | nil => exact absurd hsp (splitOnSubF_ne_nil pat f rest)
        | cons p ps =>
          rw [joinWith_cons_head, ← hsp, ih rest (by simp only [List.length_cons] at hs; omega)]

theorem joinWith_splitOnSub (pat s : List Char) :
    joinWith pat (splitOnSub pat s) = s :=
  joinWith_splitOnSubF pat s.length s le_rfl

theorem splitOnSubF_not_contains (pat : List Char) :
    ∀ (fuel : Nat) (s : List Char), containsSub pat s = false →
      splitOnSubF pat fuel s = [s] := by
  intro fuel
  induction fuel with
  | zero =>
    intro s _
    cases s with
    | nil => simp [splitOnSubF]
    | cons c rest => simp [splitOnSubF]
  | succ f ih =>
    intro s hc
    cases s with
    | nil => simp [splitOnSubF]
    | cons c rest =>
      simp only [containsSub, Bool.or_eq_false_iff] at hc
      simp only [splitOnSubF]
      rw [if_neg (by simp [hc.1]), ih rest hc.2]

theorem splitOnSub_not_contains (pat s : List Char) (h : containsSub pat s = false) :
    splitOnSub pat s = [s] :=
  splitOnSubF_not_contains pat s.length s h

theorem splitOnSubF_pieces_free (pat : List Char) (hne : pat ≠ []) :
    ∀ (fuel : Nat) (s : List Char), s.length ≤ fuel →
      ∀ p ∈ splitOnSubF pat fuel s, containsSub pat p = false := by
  intro fuel
  induction fuel with
  | zero =>
    intro s hs p hp
    cases s with
    | nil =>
      simp only [splitOnSubF, List.mem_singleton] at hp
      subst hp
      simp [containsSub, hne]
    | cons c rest => simp at hs
  | succ f ih =>
    intro s hs p hp
    cases s with
    | nil =>
      simp only [splitOnSubF, List.mem_singleton] at hp
      subst hp
      simp [containsSub, hne]
    | cons c rest =>
      simp only [splitOnSubF] at hp
      by_cases hcond : pat ≠ [] ∧ pat.isPrefixOf (c :: rest) = true
      · rw [if_pos hcond] at hp
        rcases List.mem_cons.mp hp with rfl | hp'
        · simp [containsSub, hne]
        · have hlen : ((c :: rest).drop pat.length).length ≤ f := by
            have h1 : 1 ≤ pat.length := by
              cases pat with
              | nil => exact absurd rfl hne
              | cons _ _ => simp
            simp only [List.length_drop, List.length_cons]
            simp only [List.length_cons] at hs
            omega
          exact ih _ hlen p hp'
      · rw [if_neg hcond] at hp
        have hpre : pat.isPrefixOf (c :: rest) = false := by
          rcases Bool.eq_false_or_eq_true (pat.isPrefixOf (c :: rest)) with h | h
          · exact absurd ⟨hne, h⟩ hcond
          · exact h
        have hrest : rest.length ≤ f := by
          simp only [List.length_cons] at hs
          omega
        cases hsp : splitOnSubF pat f rest with
        | nil => exact absurd hsp (splitOnSubF_ne_nil pat f rest)
        | cons q qs =>
          rw [hsp] at hp
          rcases List.mem_cons.mp hp with rfl | hp'
          · have hq : containsSub pat q = false := by
              have := ih rest hrest q (by rw [hsp]; exact List.mem_cons_self q qs)
              exact this
            simp only [containsSub, Bool.or_eq_false_iff]
            refine ⟨?_, hq⟩
            rcases Bool.eq_false_or_eq_true (pat.isPrefixOf (c :: q)) with h | h
            · exfalso
              obtain ⟨t, ht⟩ := joinWith_head_append pat q qs
              have hjoin : joinWith pat (splitOnSubF pat f rest) = rest :=
                joinWith_splitOnSubF pat f rest hrest
              rw [hsp, ht] at hjoin
              have : pat.isPrefixOf (c :: rest) = true := by
                rw [← hjoin, show c :: (q ++ t) = (c :: q) ++ t by simp]
                exact isPrefixOf_extend pat (c :: q) t h
              rw [this] at hpre
              exact absurd hpre (by simp)
            · exact h
          · exact ih rest hrest p (by rw [hsp]; exact List.mem_cons_of_mem q hp')

theorem splitOnSub_pieces_free (pat s : List Char) (hne : pat ≠ []) :
    ∀ p ∈ splitOnSub pat s, containsSub pat p = false :=
  splitOnSubF_pieces_free pat hne s.length s le_rfl

/- ## processRepl: Python replacement escape processing -/

theorem processRepl_cons_of_ne (c : Char) (t : List Char) (h : c ≠ '\\') :
    processRepl (c :: t) = c :: processRepl t := by
  cases t with
  | nil => simp [processRepl]
  | cons d t' => simp [processRepl, h]

theorem processRepl_bs_pair (t : List Char) :
    processRepl ('\\' :: '\\' :: t) = '\\' :: processRepl t := by
  simp [processRepl]

theorem processRepl_append_free :
    ∀ (a : List Char), (∀ c ∈ a, c ≠ '\\') → ∀ b, processRepl (a ++ b) = a ++ processRepl b := by
  intro a
  induction a with
  | nil => intro _ b; simp
  | cons c cs ih =>
    intro h b
    have hc : c ≠ '\\' := h c (List.mem_cons_self c cs)
    rw [List.cons_append, processRepl_cons_of_ne c _ hc, ih (fun x hx => h x (List.mem_cons_of_mem c hx)) b]
    simp

theorem processRepl_free (a : List Char) (h : ∀ c ∈ a, c ≠ '\\') : processRepl a = a := by
  have := processRepl_append_free a h []
  simpa [processRepl] using this

/-- `reSub` with a pattern not occurring in the subject returns the subject
unchanged. -/
theorem reSub_not_contains (pat repl s : String)
    (h : containsSub pat.toList s.toList = false) : reSub pat repl s = s := by
  unfold reSub splitOnSub
  rw [splitOnSubF_not_contains pat.toList s.toList.length s.toList h]
  simp [joinWith, str_mk_toList]

/- ## Backslash-freeness of the rendered fragments -/

set_option maxRecDepth 8192 in
theorem noBS_formatTemplatedHtml (g u : String) (hg : noBS g = true) (hu : noBS u = true) :
    noBS (formatTemplatedHtml g u) = true := by
  simp only [formatTemplatedHtml, noBS_append, hg, hu, Bool.and_true, Bool.true_and]
  decide

theorem noBS_joinWith (sep : List Char) (hsep : ∀ c ∈ sep, c ≠ '\\') :
    ∀ (xs : List (List Char)), (∀ x ∈ xs, ∀ c ∈ x, c ≠ '\\') →
      ∀ c ∈ joinWith sep xs, c ≠ '\\' := by
  intro xs
  induction xs with
  | nil => intro _ c hc; simp [joinWith] at hc
  | cons x rest ih =>
    intro h c hc
    cases rest with
    | nil =>
      simp only [joinWith] at hc
      exact h x (List.mem_cons_self x []) c hc
    | cons y ys =>
      simp only [joinWith] at hc
      rcases List.mem_append.mp hc with hc' | hc'
      · rcases List.mem_append.mp hc' with h1 | h1
        · exact h x (List.mem_cons_self x _) c h1
        · exact hsep c h1
      · exact ih (fun z hz => h z (List.mem_cons_of_mem x hz)) c hc'

theorem noBS_joinWithS (xs : List String) (h : ∀ x ∈ xs, noBS x = true) :
    ∀ c ∈ (joinWithS "\n" xs).toList, c ≠ '\\' := by
  intro c hc
  have : (joinWithS "\n" xs).toList = joinWith ['\n'] (xs.map String.toList) := rfl
  rw [this] at hc
  refine noBS_joinWith ['\n'] (by decide) (xs.map String.toList) ?_ c hc
  intro x hx d hd
  rcases List.mem_map.mp hx with ⟨s, hs, rfl⟩
  exact (noBS_iff s).mp (h s hs) d hd

/- ## The CSS fragment through the re.sub escape processing -/

theorem processRepl_css_step (g u : String) (t : List Char)
    (hg : noBS g = true) (hu : noBS u = true) :
    processRepl ((formatTemplatedCss g u).toList ++ t) =
      (cookedCssFragment g u).toList ++ processRepl t := by
  have hA : ∀ c ∈ ("\n.icon-" ++ g ++ ":before \x7b\n  content: \"").toList, c ≠ '\\' := by
    intro c hc
    rw [str_toList_append, str_toList_append] at hc
    rcases List.mem_append.mp hc with hc' | hc'
    · rcases List.mem_append.mp hc' with h1 | h1
      · exact (noBS_iff _).mp (by decide) c h1
      · exact (noBS_iff g).mp hg c h1
    · exact (noBS_iff _).mp (by decide) c hc'
  have hB : ∀ c ∈ (u ++ "\";\n\x7d\n").toList, c ≠ '\\' := by
    intro c hc
    rw [str_toList_append] at hc
    rcases List.mem_append.mp hc with h1 | h1
    · exact (noBS_iff u).mp hu c h1
    · exact (noBS_iff _).mp (by decide) c h1
  have e1 : (formatTemplatedCss g u).toList ++ t =
      ("\n.icon-" ++ g ++ ":before \x7b\n  content: \"").toList ++
        ('\\' :: '\\' :: ((u ++ "\";\n\x7d\n").toList ++ t)) := by
    simp [formatTemplatedCss, str_toList_append, List.append_assoc]
  rw [e1, processRepl_append_free _ hA, processRepl_bs_pair,
    processRepl_append_free _ hB]
  simp [cookedCssFragment, str_toList_append, List.append_assoc]

theorem processRepl_classes_chars :
    ∀ (g : List (String × String)),
      (∀ kv ∈ g, noBS (pathStem kv.2) = true ∧ noBS (stripOx kv.1) = true) →
      processRepl (joinWith ['\n']
          (g.map fun kv => (formatTemplatedCss (pathStem kv.2) (stripOx kv.1)).toList)) =
        joinWith ['\n']
          (g.map fun kv => (cookedCssFragment (pathStem kv.2) (stripOx kv.1)).toList) := by
  intro g
  induction g with
  | nil => intro _; simp [joinWith, processRepl]
  | cons kv rest ih =>
    intro h
    have hkv := h kv (List.mem_cons_self kv rest)
    cases rest with
    | nil =>
      simp only [List.map_cons, List.map_nil, joinWith]
      have := processRepl_css_step (pathStem kv.2) (stripOx kv.1) [] hkv.1 hkv.2
      simpa [processRepl] using this
    | cons kv2 rest2 =>
      have hstep := processRepl_css_step (pathStem kv.2) (stripOx kv.1)
        ('\n' :: joinWith ['\n']
          ((kv2 :: rest2).map fun z => (formatTemplatedCss (pathStem z.2) (stripOx z.1)).toList))
        hkv.1 hkv.2
      have hrest := ih (fun z hz => h z (List.mem_cons_of_mem kv hz))
      simp only [List.map_cons] at hstep hrest ⊢
      simp only [joinWith]
      rw [List.append_assoc]
      simp only [List.cons_append, List.nil_append]
      rw [hstep, processRepl_cons_of_ne '\n' _ (by decide), hrest]
      simp [List.append_assoc]

theorem processRepl_classes_join (g : List (String × String))
    (h : ∀ kv ∈ g, noBS (pathStem kv.2) = true ∧ noBS (stripOx kv.1) = true) :
    processRepl ((joinWithS "\n" (classes_list g)).toList) =
      (joinWithS "\n" (g.map fun kv => cookedCssFragment (pathStem kv.2) (stripOx kv.1))).toList := by
  have e1 : (joinWithS "\n" (classes_list g)).toList =
      joinWith ['\n'] (g.map fun kv => (formatTemplatedCss (pathStem kv.2) (stripOx kv.1)).toList) := by
    show joinWith ['\n']
        (((g.map fun kv => formatTemplatedCss (pathStem kv.2) (stripOx kv.1))).map String.toList) = _
    rw [List.map_map]
    rfl
  have e2 : (joinWithS "\n" (g.map fun kv => cookedCssFragment (pathStem kv.2) (stripOx kv.1))).toList =
      joinWith ['\n'] (g.map fun kv => (cookedCssFragment (pathStem kv.2) (stripOx kv.1)).toList) := by
    show joinWith ['\n']
        ((g.map fun kv => cookedCssFragment (pathStem kv.2) (stripOx kv.1)).map String.toList) = _
    rw [List.map_map]
    rfl
  rw [e1, e2]
  exact processRepl_classes_chars g h

/- ## The rendered HTML fragment contains both renderings of the code -/

theorem strContains_decomp (pat x y s : String)
    (h : s.toList = x.toList ++ (pat.toList ++ y.toList)) :
    containsSub pat.toList s.toList = true :=
  containsSub_of_parts pat.toList x.toList y.toList s.toList h

set_option maxRecDepth 65536 in
theorem formatTemplatedHtml_contains (g u : String) :
    containsSub ("icon-" ++ g).toList (formatTemplatedHtml g u).toList = true
    ∧ containsSub ("value=\"" ++ u ++ "\"").toList (formatTemplatedHtml g u).toList = true
    ∧ containsSub ("&#x" ++ u ++ ";").toList (formatTemplatedHtml g u).toList = true := by
  refine ⟨?_, ?_, ?_⟩
  · refine strContains_decomp _
      "\n      <div class=\"glyph fs1\">\n        <div class=\"clearfix bshadow0 pbs\">\n          <span class=\""
      ("\"></span>\n          <span class=\"mls\"> " ++ ("icon-" ++ g) ++
        "</span>\n        </div>\n        <fieldset class=\"fs0 size1of1 clearfix hidden-false\">\n          <input type=\"text\" readonly " ++
        ("value=\"" ++ u ++ "\"") ++
        " class=\"unit size1of2\" />\n          <input\n            type=\"text\"\n            maxlength=\"1\"\n            readonly\n            value=\"" ++
        ("&#x" ++ u ++ ";") ++
        "\"\n            class=\"unitRight size1of2 talign-right\"\n          />\n        </fieldset>\n        <div class=\"fs0 bshadow0 clearfix hidden-true\">\n          <span class=\"unit pvs fgc1\">liga: </span>\n          <input type=\"text\" readonly value=\"\" class=\"liga unitRight\" />\n        </div>\n      </div>\n")
      _ ?_
    simp [formatTemplatedHtml, str_toList_append, List.append_assoc]
  · refine strContains_decomp _
      ("\n      <div class=\"glyph fs1\">\n        <div class=\"clearfix bshadow0 pbs\">\n          <span class=\"" ++
        ("icon-" ++ g) ++
        "\"></span>\n          <span class=\"mls\"> " ++ ("icon-" ++ g) ++
        "</span>\n        </div>\n        <fieldset class=\"fs0 size1of1 clearfix hidden-false\">\n          <input type=\"text\" readonly ")
      (" class=\"unit size1of2\" />\n          <input\n            type=\"text\"\n            maxlength=\"1\"\n            readonly\n            value=\"" ++
        ("&#x" ++ u ++ ";") ++
        "\"\n            class=\"unitRight size1of2 talign-right\"\n          />\n        </fieldset>\n        <div class=\"fs0 bshadow0 clearfix hidden-true\">\n          <span class=\"unit pvs fgc1\">liga: </span>\n          <input type=\"text\" readonly value=\"\" class=\"liga unitRight\" />\n        </div>\n      </div>\n")
      _ ?_
    simp [formatTemplatedHtml, str_toList_append, List.append_assoc]
  · refine strContains_decomp _
      ("\n      <div class=\"glyph fs1\">\n        <div class=\"clearfix bshadow0 pbs\">\n          <span class=\"" ++
        ("icon-" ++ g) ++
        "\"></span>\n          <span class=\"mls\"> " ++ ("icon-" ++ g) ++
        "</span>\n        </div>\n        <fieldset class=\"fs0 size1of1 clearfix hidden-false\">\n          <input type=\"text\" readonly " ++
        ("value=\"" ++ u ++ "\"") ++
        " class=\"unit size1of2\" />\n          <input\n            type=\"text\"\n            maxlength=\"1\"\n            readonly\n            value=\"")
      ("\"\n            class=\"unitRight size1of2 talign-right\"\n          />\n        </fieldset>\n        <div class=\"fs0 bshadow0 clearfix hidden-true\">\n          <span class=\"unit pvs fgc1\">liga: </span>\n          <input type=\"text\" readonly value=\"\" class=\"liga unitRight\" />\n        </div>\n      </div>\n")
      _ ?_
    simp [formatTemplatedHtml, str_toList_append, List.append_assoc]

/-- C2: for every glyph mapping, under a CSS template containing the
`{{ STYLE_LIST }}` marker exactly once (the split has exactly two pieces),
the generated stylesheet is the template with the marker replaced by one rule
per glyph — the rule selector is `icon-<stem>` and its content escape is a
single backslash followed by the glyph's hex code with the `0x` prefix
stripped (the template's double backslash collapses through `re.sub`). -/
theorem C2_style_rules (t a b : String) (g : List (String × String))
    (hsplit : splitOnSub REGEX_STYLE_LIST.toList t.toList = [a.toList, b.toList])
    (hok : ∀ kv ∈ g, noBS (pathStem kv.2) = true ∧ noBS (stripOx kv.1) = true) :
    generate_style_css t g =
      a ++ joinWithS "\n" (g.map fun kv => cookedCssFragment (pathStem kv.2) (stripOx kv.1)) ++ b
    ∧ (g.map fun kv => cookedCssFragment (pathStem kv.2) (stripOx kv.1)).length = g.length := by
  constructor
  · show String.mk (joinWith (processRepl (joinWithS "\n" (classes_list g)).toList)
        (splitOnSub REGEX_STYLE_LIST.toList t.toList)) = _
    rw [hsplit, joinWith_pair, processRepl_classes_join g hok]
    rfl
  · simp

set_option maxRecDepth 65536 in
/-- Witness for C2 at the spec's example: icons `home.svg`, `user.svg` mapped
to `0xe900`, `0xe901` yield the rules `.icon-home:before … "\e900"` and
`.icon-user:before … "\e901"`. -/
theorem C2_style_rules_witness :
    generate_style_css "X\x7b\x7b STYLE_LIST \x7d\x7dY"
        [("0xe900", "/work/icons/home.svg"), ("0xe901", "/work/icons/user.svg")] =
      "X\n.icon-home:before \x7b\n  content: \"\\e900\";\n\x7d\n\n\n.icon-user:before \x7b\n  content: \"\\e901\";\n\x7d\nY" :=
  ((C2_style_rules "X\x7b\x7b STYLE_LIST \x7d\x7dY" "X" "Y"
      [("0xe900", "/work/icons/home.svg"), ("0xe901", "/work/icons/user.svg")]
      (by decide) (by decide)).1).trans (by decide)

/-- C3: for every glyph mapping, under an HTML template whose glyph-list
marker occurs exactly once (after the count substitution), the demo page is
the template with `{{ GLYPH_LIST }}` replaced by exactly one fragment per
glyph, joined by newlines; each fragment contains the icon's stem (as
`icon-<stem>`) and the `0x`-stripped code both as the literal input value and
as the numeric character reference `&#x…;`. -/
theorem C3_demo_fragments (t a b : String) (g : List (String × String))
    (hsplit : splitOnSub REGEX_GLYPH_LIST.toList
        (reSub REGEX_NUMBER_OF_GLYPHS (pyStr g.length) t).toList = [a.toList, b.toList])
    (hok : ∀ kv ∈ g, noBS (pathStem kv.2) = true ∧ noBS (stripOx kv.1) = true) :
    generate_demo_html t g = a ++ joinWithS "\n" (div_list g) ++ b
    ∧ (div_list g).length = g.length
    ∧ ∀ kv ∈ g,
        containsSub ("icon-" ++ pathStem kv.2).toList
            (formatTemplatedHtml (pathStem kv.2) (stripOx kv.1)).toList = true
        ∧ containsSub ("value=\"" ++ stripOx kv.1 ++ "\"").toList
            (formatTemplatedHtml (pathStem kv.2) (stripOx kv.1)).toList = true
        ∧ containsSub ("&#x" ++ stripOx kv.1 ++ ";").toList
            (formatTemplatedHtml (pathStem kv.2) (stripOx kv.1)).toList = true := by
  refine ⟨?_, by simp [div_list], fun kv _ => formatTemplatedHtml_contains _ _⟩
  have hfree : ∀ c ∈ (joinWithS "\n" (div_list g)).toList, c ≠ '\\' := by
    refine noBS_joinWithS (div_list g) ?_
    intro x hx
    rcases List.mem_map.mp hx with ⟨kv, hkv, rfl⟩
    exact noBS_formatTemplatedHtml _ _ (hok kv hkv).1 (hok kv hkv).2
  show String.mk (joinWith (processRepl (joinWithS "\n" (div_list g)).toList)
      (splitOnSub REGEX_GLYPH_LIST.toList
        (reSub REGEX_NUMBER_OF_GLYPHS (pyStr g.length) t).toList)) = _
  rw [hsplit, joinWith_pair, processRepl_free _ hfree]
  rfl

set_option maxRecDepth 65536 in
/-- Witness for C3: one icon `home.svg` at `0xe900`; the page is the template
with `1` for the count and the fragment (containing `icon-home`,
`value="e900"` and `&#xe900;`) for the list. -/
theorem C3_demo_fragments_witness :
    generate_demo_html "N=\x7b\x7b NUMBER_OF_GLYPHS \x7d\x7d L:\x7b\x7b GLYPH_LIST \x7d\x7dZ"
        [("0xe900", "/work/icons/home.svg")] =
      "N=1 L:" ++ formatTemplatedHtml "home" "e900" ++ "Z"
    ∧ containsSub "&#xe900;".toList (formatTemplatedHtml "home" "e900").toList = true :=
  ⟨((C3_demo_fragments "N=\x7b\x7b NUMBER_OF_GLYPHS \x7d\x7d L:\x7b\x7b GLYPH_LIST \x7d\x7dZ"
        "N=1 L:" "Z" [("0xe900", "/work/icons/home.svg")] (by decide) (by decide)).1).trans
      (by decide),
    (((C3_demo_fragments "N=\x7b\x7b NUMBER_OF_GLYPHS \x7d\x7d L:\x7b\x7b GLYPH_LIST \x7d\x7dZ"
        "N=1 L:" "Z" [("0xe900", "/work/icons/home.svg")] (by decide) (by decide)).2.2
      ("0xe900", "/work/icons/home.svg") (by decide)).2.2)⟩

set_option maxRecDepth 65536 in
/-- C4 counterexample: in a template containing the `{{ STYLE_LIST }}` marker
twice, BOTH occurrences are substituted (`re.sub` replaces every occurrence),
so the rule list appears twice and no marker remains — the claim's "each
placeholder is substituted exactly once" fails. -/
theorem C4_counterexample :
    generate_style_css "\x7b\x7b STYLE_LIST \x7d\x7d\x7b\x7b STYLE_LIST \x7d\x7d"
        [("0xe900", "home.svg")] =
      "\n.icon-home:before \x7b\n  content: \"\\e900\";\n\x7d\n\n.icon-home:before \x7b\n  content: \"\\e900\";\n\x7d\n"
    ∧ containsSub REGEX_STYLE_LIST.toList
        (generate_style_css "\x7b\x7b STYLE_LIST \x7d\x7d\x7b\x7b STYLE_LIST \x7d\x7d"
          [("0xe900", "home.svg")]).toList = false :=
  ⟨by decide, by decide⟩

/-- C4 (amended): placeholder matching is literal matching of the fixed
marker strings and substitution happens once per occurrence — the output is
the marker-free pieces of the template joined by the processed replacement,
every piece of the decomposition is marker-free, and the pieces joined by the
marker reconstruct the template; a template in which a placeholder is absent
passes through unchanged for that field, without error. -/
theorem C4_literal_substitution (tH tC : String) (g : List (String × String)) :
    (containsSub REGEX_NUMBER_OF_GLYPHS.toList tH.toList = false →
      containsSub REGEX_GLYPH_LIST.toList tH.toList = false →
      generate_demo_html tH g = tH)
    ∧ (containsSub REGEX_STYLE_LIST.toList tC.toList = false → generate_style_css tC g = tC)
    ∧ generate_style_css tC g =
        String.mk (joinWith (processRepl (joinWithS "\n" (classes_list g)).toList)
          (splitOnSub REGEX_STYLE_LIST.toList tC.toList))
    ∧ (∀ p ∈ splitOnSub REGEX_STYLE_LIST.toList tC.toList,
        containsSub REGEX_STYLE_LIST.toList p = false)
    ∧ joinWith REGEX_STYLE_LIST.toList (splitOnSub REGEX_STYLE_LIST.toList tC.toList) = tC.toList := by
  refine ⟨?_, ?_, rfl, splitOnSub_pieces_free _ _ (by decide), joinWith_splitOnSub _ _⟩
  · intro h1 h2
    show reSub REGEX_GLYPH_LIST (joinWithS "\n" (div_list g))
        (reSub REGEX_NUMBER_OF_GLYPHS (pyStr g.length) tH) = tH
    rw [reSub_not_contains _ _ _ h1, reSub_not_contains _ _ _ h2]
  · intro h
    exact reSub_not_contains _ _ _ h

/-- Witness for C4 (amended): marker-free templates pass through unchanged. -/
theorem C4_literal_substitution_witness :
    generate_demo_html "plain page" [("0xe900", "home.svg")] = "plain page"
    ∧ generate_style_css "plain sheet" [("0xe900", "home.svg")] = "plain sheet" :=
  ⟨(C4_literal_substitution "plain page" "plain sheet" [("0xe900", "home.svg")]).1
      (by decide) (by decide),
    (C4_literal_substitution "plain page" "plain sheet" [("0xe900", "home.svg")]).2.1
      (by decide)⟩

/-- C7: an empty icon directory yields the empty mapping; the glyph-count
placeholder substitutes to `"0"`, the glyph-list and style-list placeholders
substitute to the empty string — in particular a stylesheet template with one
marker occurrence comes out as its two pieces with nothing in between. -/
theorem C7_empty_directory (absl : String → String) (tH tC : String) :
    get_glyphs absl [] = []
    ∧ generate_demo_html tH [] = reSub REGEX_GLYPH_LIST "" (reSub REGEX_NUMBER_OF_GLYPHS "0" tH)
    ∧ generate_style_css tC [] = reSub REGEX_STYLE_LIST "" tC
    ∧ (∀ a b : String, splitOnSub REGEX_STYLE_LIST.toList tC.toList = [a.toList, b.toList] →
        generate_style_css tC [] = a ++ b) := by
  refine ⟨rfl, rfl, rfl, ?_⟩
  intro a b hsplit
  show String.mk (joinWith (processRepl (joinWithS "\n" (classes_list [])).toList)
      (splitOnSub REGEX_STYLE_LIST.toList tC.toList)) = a ++ b
  rw [hsplit]
  show String.mk (joinWith [] [a.toList, b.toList]) = a ++ b
  rw [joinWith_pair, List.append_nil]
  rfl

/-- Witness for C7: concrete empty run. -/
theorem C7_empty_directory_witness :
    get_glyphs (fun s => "/work/icons/" ++ s) [] = []
    ∧ generate_demo_html "N=\x7b\x7b NUMBER_OF_GLYPHS \x7d\x7d:\x7b\x7b GLYPH_LIST \x7d\x7d" [] = "N=0:"
    ∧ generate_style_css "A\x7b\x7b STYLE_LIST \x7d\x7dB" [] = "AB" :=
  ⟨(C7_empty_directory (fun s => "/work/icons/" ++ s) "" "").1,
    ((C7_empty_directory (fun s => "/work/icons/" ++ s)
        "N=\x7b\x7b NUMBER_OF_GLYPHS \x7d\x7d:\x7b\x7b GLYPH_LIST \x7d\x7d" "").2.1).trans (by decide),
    (C7_empty_directory (fun s => "/work/icons/" ++ s) "" "A\x7b\x7b STYLE_LIST \x7d\x7dB").2.2.2
      "A" "B" (by decide)⟩

/- ## Dict pop/lookup facts -/

theorem popKey_fst (k : String) : ∀ l, (popKey k l).1 = lookupKey k l := by
  intro l
  induction l with
  | nil => rfl
  | cons kv rest ih =>
    simp only [popKey, lookupKey]
    split
    · rfl
    · simpa using ih

theorem lookupKey_popKey_other (k k' : String) (hkk : k' ≠ k) :
    ∀ l, lookupKey k' (popKey k l).2 = lookupKey k' l := by
  intro l
  induction l with
  | nil => rfl
  | cons kv rest ih =>
    by_cases h : kv.1 = k
    · simp only [popKey, if_pos h, lookupKey]
      rw [if_neg (by rw [h]; exact fun he => hkk he.symm)]
    · simp only [popKey, if_neg h, lookupKey]
      split
      · rfl
      · exact ih

theorem popKey_sublist (k : String) : ∀ l, (popKey k l).2.Sublist l := by
  intro l
  induction l with
  | nil => simp [popKey]
  | cons kv rest ih =>
    simp only [popKey]
    split
    · exact List.sublist_cons_self kv rest
    · exact ih.cons₂ kv

theorem lookupKey_none_forall (k : String) :
    ∀ l, lookupKey k l = none → ∀ kv ∈ l, kv.1 ≠ k := by
  intro l
  induction l with
  | nil => intro _ kv hkv; simp at hkv
  | cons kv0 rest ih =>
    intro h kv hkv
    simp only [lookupKey] at h
    rcases List.mem_cons.mp hkv with rfl | hkv'
    · intro hc
      rw [if_pos hc] at h
      exact Option.some_ne_none _ h
    · split at h
      · exact absurd h (Option.some_ne_none _)
      · exact ih h kv hkv'

theorem popKey_id_of_none (k : String) :
    ∀ l, lookupKey k l = none → (popKey k l).2 = l := by
  intro l
  induction l with
  | nil => intro _; rfl
  | cons kv rest ih =>
    intro h
    simp only [lookupKey] at h
    simp only [popKey]
    split
    · rename_i hk
      rw [if_pos hk] at h
      exact absurd h (Option.some_ne_none _)
    · rename_i hk
      rw [if_neg hk] at h
      rw [ih h]

theorem popKey_eq_filter (k : String) :
    ∀ l, keysNodup l → (popKey k l).2 = l.filter fun kv => kv.1 ≠ k := by
  intro l
  induction l with
  | nil => intro _; rfl
  | cons kv rest ih =>
    intro hn
    have hn' : keysNodup rest := by
      simpa [keysNodup] using (List.nodup_cons.mp (by simpa [keysNodup] using hn)).2
    have hnotin : kv.1 ∉ rest.map Prod.fst :=
      (List.nodup_cons.mp (by simpa [keysNodup] using hn)).1
    by_cases h : kv.1 = k
    · simp only [popKey, if_pos h]
      rw [List.filter_cons_of_neg (by simp [h])]
      rw [(List.filter_eq_self).mpr]
      intro a ha
      have : a.1 ≠ kv.1 := by
        intro he
        exact hnotin (he ▸ List.mem_map_of_mem Prod.fst ha)
      simp [h ▸ this]
    · simp only [popKey, if_neg h]
      rw [List.filter_cons_of_pos (by simp [h])]
      rw [ih hn']

theorem keysNodup_popKey (k : String) (l : List (String × Value)) (hn : keysNodup l) :
    keysNodup (popKey k l).2 :=
  hn.sublist ((popKey_sublist k l).map Prod.fst)

/- ## set_font_properties: result shape -/

theorem set_font_properties_some (ha : String → Bool) (f : Font) (cfg : Config)
    (f' : Font) (cfg' : Config) (hs : set_font_properties ha f cfg = some (f', cfg')) :
    cfg' = { cfg with props :=
      (popKey "encoding" (popKey "style" (popKey "family" (popKey "lang" cfg.props).2).2).2).2 } := by
  simp only [set_font_properties] at hs
  rcases Option.map_eq_some'.mp hs with ⟨f1, _, heq⟩
  have h2 := congrArg Prod.snd heq
  simpa using h2.symm

/-- C5 counterexample: `set_font_properties` does NOT leave the given
configuration unchanged — for a config whose props holds only a family name,
the returned configuration's props is empty (the `pop` consumed the key). -/
theorem C5_counterexample :
    (set_font_properties (fun _ => false) emptyFont
        ⟨[("family", Value.vStr "Acme")], [], some []⟩).map (fun r => r.2.props.length) = some 0
    ∧ ((⟨[("family", Value.vStr "Acme")], [], some []⟩ : Config)).props.length = 1 :=
  ⟨rfl, rfl⟩

/-- C5 (amended): `set_font_properties` mutates the configuration it is
given: the keys `lang`, `family`, `style` and `encoding` are destructively
removed from `props` (in that order), while all other props entries keep
their order and `sfnt_names`/`output_fonts` are untouched; only a
configuration whose props contains none of those four keys comes back
unchanged. -/
theorem C5_props_consumed (ha : String → Bool) (f : Font) (cfg : Config)
    (f' : Font) (cfg' : Config) (hn : keysNodup cfg.props)
    (hs : set_font_properties ha f cfg = some (f', cfg')) :
    cfg'.sfnt_names = cfg.sfnt_names
    ∧ cfg'.output_fonts = cfg.output_fonts
    ∧ cfg'.props = (((cfg.props.filter (fun kv => kv.1 ≠ "lang")).filter
        (fun kv => kv.1 ≠ "family")).filter (fun kv => kv.1 ≠ "style")).filter
        (fun kv => kv.1 ≠ "encoding")
    ∧ ((lookupKey "lang" cfg.props = none ∧ lookupKey "family" cfg.props = none
        ∧ lookupKey "style" cfg.props = none ∧ lookupKey "encoding" cfg.props = none) →
        cfg' = cfg) := by
  have hshape := set_font_properties_some ha f cfg f' cfg' hs
  refine ⟨by rw [hshape], by rw [hshape], ?_, ?_⟩
  · rw [hshape]
    have hn1 : keysNodup (popKey "lang" cfg.props).2 := keysNodup_popKey _ _ hn
    have hn2 : keysNodup (popKey "family" (popKey "lang" cfg.props).2).2 :=
      keysNodup_popKey _ _ hn1
    have hn3 : keysNodup
        (popKey "style" (popKey "family" (popKey "lang" cfg.props).2).2).2 :=
      keysNodup_popKey _ _ hn2
    show (popKey "encoding" _).2 = _
    rw [popKey_eq_filter _ _ hn3, popKey_eq_filter _ _ hn2, popKey_eq_filter _ _ hn1,
      popKey_eq_filter _ _ hn]
  · rintro ⟨h1, h2, h3, h4⟩
    rw [hshape, popKey_id_of_none _ _ h1, popKey_id_of_none _ _ h2,
      popKey_id_of_none _ _ h3, popKey_id_of_none _ _ h4]

/-- Witness for C5 (amended): a config with an extra metadata key keeps that
key, `sfnt_names` and `output_fonts`, but loses `family` and `style` from its
props. -/
theorem C5_props_consumed_witness :
    keysNodup (Config.mk [("family", Value.vStr "Acme"), ("copyright", Value.vStr "MIT"),
        ("style", Value.vStr "Bold")] [Value.vNull] (some ["f.ttf"])).props
    ∧ set_font_properties (fun _ => false) emptyFont
        (Config.mk [("family", Value.vStr "Acme"), ("copyright", Value.vStr "MIT"),
          ("style", Value.vStr "Bold")] [Value.vNull] (some ["f.ttf"])) =
        some (Font.mk (some (Value.vStr "UnicodeFull")) (some (Value.vStr "Acme"))
            (some (Value.vStr "Acme-Bold")) (some (Value.vStr "Acme Bold")) []
            [(Value.vStr "English (US)", "copyright", Value.vStr "MIT")] [Value.vNull] [],
          Config.mk [("copyright", Value.vStr "MIT")] [Value.vNull] (some ["f.ttf"]))
    ∧ (Config.mk [("copyright", Value.vStr "MIT")] [Value.vNull] (some ["f.ttf"])).props =
        ((((Config.mk [("family", Value.vStr "Acme"), ("copyright", Value.vStr "MIT"),
            ("style", Value.vStr "Bold")] [Value.vNull] (some ["f.ttf"])).props.filter
          (fun kv => kv.1 ≠ "lang")).filter (fun kv => kv.1 ≠ "family")).filter
          (fun kv => kv.1 ≠ "style")).filter (fun kv => kv.1 ≠ "encoding") :=
  ⟨by unfold keysNodup; decide, rfl,
    (C5_props_consumed (fun _ => false) emptyFont
      (Config.mk [("family", Value.vStr "Acme"), ("copyright", Value.vStr "MIT"),
        ("style", Value.vStr "Bold")] [Value.vNull] (some ["f.ttf"]))
      (Font.mk (some (Value.vStr "UnicodeFull")) (some (Value.vStr "Acme"))
        (some (Value.vStr "Acme-Bold")) (some (Value.vStr "Acme Bold")) []
        [(Value.vStr "English (US)", "copyright", Value.vStr "MIT")] [Value.vNull] [])
      (Config.mk [("copyright", Value.vStr "MIT")] [Value.vNull] (some ["f.ttf"]))
      (by unfold keysNodup; decide) rfl).2.2.1⟩

/- ## The props loop leaves the three name attributes alone when their keys
are absent -/

theorem applyProp_preserves_names (ha : String → Bool) (lang : Value) (fo : Font)
    (k : String) (v : Value) (h1 : k ≠ "familyname") (h2 : k ≠ "fontname")
    (h3 : k ≠ "fullname") :
    (applyProp ha lang fo k v).familyname = fo.familyname
    ∧ (applyProp ha lang fo k v).fontname = fo.fontname
    ∧ (applyProp ha lang fo k v).fullname = fo.fullname := by
  simp only [applyProp]
  split_ifs <;> simp_all

theorem foldl_applyProp_preserves (ha : String → Bool) (lang : Value) :
    ∀ (l : List (String × Value)) (fo : Font),
      (∀ kv ∈ l, kv.1 ≠ "familyname" ∧ kv.1 ≠ "fontname" ∧ kv.1 ≠ "fullname") →
      ((l.foldl (fun fo kv => applyProp ha lang fo kv.1 kv.2) fo).familyname = fo.familyname
      ∧ (l.foldl (fun fo kv => applyProp ha lang fo kv.1 kv.2) fo).fontname = fo.fontname
      ∧ (l.foldl (fun fo kv => applyProp ha lang fo kv.1 kv.2) fo).fullname = fo.fullname) := by
  intro l
  induction l with
  | nil => intro fo _; exact ⟨rfl, rfl, rfl⟩
  | cons kv rest ih =>
    intro fo h
    have hkv := h kv (List.mem_cons_self kv rest)
    have hstep := applyProp_preserves_names ha lang fo kv.1 kv.2 hkv.1 hkv.2.1 hkv.2.2
    have hrest := ih (applyProp ha lang fo kv.1 kv.2)
      (fun z hz => h z (List.mem_cons_of_mem kv hz))
    simp only [List.foldl_cons]
    exact ⟨hrest.1.trans hstep.1, hrest.2.1.trans hstep.2.1, hrest.2.2.trans hstep.2.2⟩

/-- C6: when props carries a (string) family name — and does not also carry
explicit `familyname`/`fontname`/`fullname` entries, which the props loop
would apply afterwards and overwrite the derived values — `set_font_properties`
succeeds and sets `fontname = family + "-" + style` and
`fullname = family + " " + style`, with `style` defaulting to `"Regular"`
when absent; when no family key is present, the three name attributes are
left exactly as they were (neither name is derived or set). -/
theorem C6_name_derivation (ha : String → Bool) (f : Font) (cfg : Config) (fam : String)
    (hno1 : lookupKey "familyname" cfg.props = none)
    (hno2 : lookupKey "fontname" cfg.props = none)
    (hno3 : lookupKey "fullname" cfg.props = none) :
    (lookupKey "family" cfg.props = some (Value.vStr fam) →
      (∀ st : String, lookupKey "style" cfg.props = some (Value.vStr st) →
        (set_font_properties ha f cfg).map (fun r => r.1.familyname) =
            some (some (Value.vStr fam))
        ∧ (set_font_properties ha f cfg).map (fun r => r.1.fontname) =
            some (some (Value.vStr (fam ++ "-" ++ st)))
        ∧ (set_font_properties ha f cfg).map (fun r => r.1.fullname) =
            some (some (Value.vStr (fam ++ " " ++ st))))
      ∧ (lookupKey "style" cfg.props = none →
        (set_font_properties ha f cfg).map (fun r => r.1.familyname) =
            some (some (Value.vStr fam))
        ∧ (set_font_properties ha f cfg).map (fun r => r.1.fontname) =
            some (some (Value.vStr (fam ++ "-" ++ DEFAULT_STYLE)))
        ∧ (set_font_properties ha f cfg).map (fun r => r.1.fullname) =
            some (some (Value.vStr (fam ++ " " ++ DEFAULT_STYLE)))))
    ∧ (lookupKey "family" cfg.props = none →
        (set_font_properties ha f cfg).map (fun r => r.1.familyname) = some f.familyname
        ∧ (set_font_properties ha f cfg).map (fun r => r.1.fontname) = some f.fontname
        ∧ (set_font_properties ha f cfg).map (fun r => r.1.fullname) = some f.fullname) := by
  have hsub : ((popKey "encoding"
      (popKey "style" (popKey "family" (popKey "lang" cfg.props).2).2).2).2).Sublist cfg.props :=
    ((popKey_sublist _ _).trans ((popKey_sublist _ _).trans
      ((popKey_sublist _ _).trans (popKey_sublist _ _))))
  have hfree : ∀ kv ∈ (popKey "encoding"
      (popKey "style" (popKey "family" (popKey "lang" cfg.props).2).2).2).2,
      kv.1 ≠ "familyname" ∧ kv.1 ≠ "fontname" ∧ kv.1 ≠ "fullname" := by
    intro kv hkv
    have hmem : kv ∈ cfg.props := List.Sublist.mem hkv hsub
    exact ⟨lookupKey_none_forall _ _ hno1 kv hmem,
      lookupKey_none_forall _ _ hno2 kv hmem,
      lookupKey_none_forall _ _ hno3 kv hmem⟩
  have efam : (popKey "family" (popKey "lang" cfg.props).2).1 = lookupKey "family" cfg.props := by
    rw [popKey_fst, lookupKey_popKey_other _ _ (by decide)]
  have esty : (popKey "style" (popKey "family" (popKey "lang" cfg.props).2).2).1 =
      lookupKey "style" cfg.props := by
    rw [popKey_fst, lookupKey_popKey_other _ _ (by decide),
      lookupKey_popKey_other _ _ (by decide)]
  constructor
  · intro hfam
    constructor
    · intro st hst
      refine ⟨?_, ?_, ?_⟩
      all_goals
        show Option.map _ (Option.map _ (derive_names _ _ _)) = _
        rw [efam, hfam, esty, hst]
      · exact congrArg some (foldl_applyProp_preserves ha _ _ _ hfree).1
      · exact congrArg some (foldl_applyProp_preserves ha _ _ _ hfree).2.1
      · exact congrArg some (foldl_applyProp_preserves ha _ _ _ hfree).2.2
    · intro hst
      refine ⟨?_, ?_, ?_⟩
      all_goals
        show Option.map _ (Option.map _ (derive_names _ _ _)) = _
        rw [efam, hfam, esty, hst]
      · exact congrArg some (foldl_applyProp_preserves ha _ _ _ hfree).1
      · exact congrArg some (foldl_applyProp_preserves ha _ _ _ hfree).2.1
      · exact congrArg some (foldl_applyProp_preserves ha _ _ _ hfree).2.2
  · intro hfam
    refine ⟨?_, ?_, ?_⟩
    all_goals
      show Option.map _ (Option.map _ (derive_names _ _ _)) = _
      rw [efam, hfam]
    · exact congrArg some (foldl_applyProp_preserves ha _ _ _ hfree).1
    · exact congrArg some (foldl_applyProp_preserves ha _ _ _ hfree).2.1
    · exact congrArg some (foldl_applyProp_preserves ha _ _ _ hfree).2.2

/-- Witness for C6: family `Swimm`, style `Bold` give font name `Swimm-Bold`
and full name `Swimm Bold`; with no family the fresh font's names stay unset. -/
theorem C6_name_derivation_witness :
    (set_font_properties (fun _ => true) emptyFont
        (Config.mk [("family", Value.vStr "Swimm"), ("style", Value.vStr "Bold")] [] (some []))).map
      (fun r => r.1.fontname) = some (some (Value.vStr "Swimm-Bold"))
    ∧ (set_font_properties (fun _ => true) emptyFont
        (Config.mk [("family", Value.vStr "Swimm"), ("style", Value.vStr "Bold")] [] (some []))).map
      (fun r => r.1.fullname) = some (some (Value.vStr "Swimm Bold"))
    ∧ (set_font_properties (fun _ => true) emptyFont
        (Config.mk [("license", Value.vStr "MIT")] [] (some []))).map
      (fun r => r.1.fontname) = some none :=
  ⟨(((C6_name_derivation (fun _ => true) emptyFont
        (Config.mk [("family", Value.vStr "Swimm"), ("style", Value.vStr "Bold")] [] (some []))
        "Swimm" rfl rfl rfl).1 rfl).1 "Bold" rfl).2.1,
    (((C6_name_derivation (fun _ => true) emptyFont
        (Config.mk [("family", Value.vStr "Swimm"), ("style", Value.vStr "Bold")] [] (some []))
        "Swimm" rfl rfl rfl).1 rfl).1 "Bold" rfl).2.2,
    ((C6_name_derivation (fun _ => true) emptyFont
        (Config.mk [("license", Value.vStr "MIT")] [] (some []))
        "unused" rfl rfl rfl).2 rfl).2.1⟩

/- ## C8: the configuration loader -/

/-- C8: `load_config` fails exactly when the file read fails (missing or
unreadable path) or the text is not well-formed structured data; on a
successful read it returns exactly what the parser produced — no schema
validation of any kind. -/
theorem C8_load_config (readText : String → Option String)
    (parseJson : String → Option Value) (p : String) :
    (load_config readText parseJson p = none ↔
      readText p = none ∨ ∃ t, readText p = some t ∧ parseJson t = none)
    ∧ (∀ t, readText p = some t → load_config readText parseJson p = parseJson t) := by
  constructor
  · cases h : readText p with
    | none => simp [load_config, h]
    | some t => simp [load_config, h]
  · intro t ht
    simp [load_config, ht]

/-- Witness for C8: a one-file filesystem and a one-text parser; the parsed
object comes back verbatim. -/
theorem C8_load_config_witness :
    load_config (fun q => if q = "base.json" then some "cfgtext" else none)
      (fun t => if t = "cfgtext" then some (Value.vObj []) else none) "base.json" =
      some (Value.vObj []) :=
  ((C8_load_config (fun q => if q = "base.json" then some "cfgtext" else none)
      (fun t => if t = "cfgtext" then some (Value.vObj []) else none) "base.json").2
    "cfgtext" rfl).trans rfl

/- ## C9: empty or absent output_fonts -/

/-- C9 counterexample: with `output_fonts` absent from the configuration, the
run does NOT complete without error — `config['output_fonts']` raises
`KeyError` (modelled `none`), aborting before any artifact, including the
demo HTML and CSS, is produced. -/
theorem C9_counterexample :
    mainPipeline (fun _ => false) (fun s => s) "" ""
      (Config.mk [] [] none) [] = none := rfl

/-- C9 (amended): when `output_fonts` is present and empty, the pipeline
completes without error, renders zero font files, and still generates the
demo HTML and the stylesheet; when `output_fonts` is absent, the pipeline
aborts with nothing produced. -/
theorem C9_empty_output_fonts (ha : String → Bool) (absl : String → String)
    (tH tC : String) (cfg : Config) (L : List String) (fc : Font × Config)
    (hout : cfg.output_fonts = some [])
    (hinit : initialize_font ha cfg (get_glyphs absl L) = some fc) :
    mainPipeline ha absl tH tC cfg L =
      some (PipelineResult.mk [] (generate_demo_html tH (get_glyphs absl L))
        (generate_style_css tC (get_glyphs absl L)))
    ∧ (∀ cfg2 : Config, cfg2.output_fonts = none → ∀ fc2,
        initialize_font ha cfg2 (get_glyphs absl L) = some fc2 →
        mainPipeline ha absl tH tC cfg2 L = none) := by
  constructor
  · show (initialize_font ha cfg (get_glyphs absl L)).bind _ = _
    rw [hinit]
    simp [hout]
  · intro cfg2 h2 fc2 hinit2
    show (initialize_font ha cfg2 (get_glyphs absl L)).bind _ = _
    rw [hinit2]
    simp [h2]

/-- Witness for C9 (amended): an empty `output_fonts` list on one icon. -/
theorem C9_empty_output_fonts_witness :
    mainPipeline (fun _ => false) (fun s => s) "H" "C"
        (Config.mk [] [] (some [])) ["a.svg"] =
      some (PipelineResult.mk []
        (generate_demo_html "H" (get_glyphs (fun s => s) ["a.svg"]))
        (generate_style_css "C" (get_glyphs (fun s => s) ["a.svg"]))) :=
  (C9_empty_output_fonts (fun _ => false) (fun s => s) "H" "C"
    (Config.mk [] [] (some [])) ["a.svg"] _ rfl rfl).1

/- ## C10: key shape, numeric order and downstream iteration order -/

theorem isLowerHexDigit_digitChar : ∀ m, m < 16 → isLowerHexDigit (Nat.digitChar m) = true := by
  decide

theorem toDigitsAux16_lower :
    ∀ (fuel n : Nat), n ≤ fuel → ∀ c ∈ toDigitsAux 16 fuel n, isLowerHexDigit c = true := by
  intro fuel
  induction fuel with
  | zero =>
    intro n hn c hc
    interval_cases n
    simp only [toDigitsAux, List.mem_singleton] at hc
    subst hc
    decide
  | succ f ih =>
    intro n hn c hc
    by_cases h : n < 16
    · simp only [toDigitsAux, if_pos h, List.mem_singleton] at hc
      subst hc
      exact isLowerHexDigit_digitChar n h
    · simp only [toDigitsAux, if_neg h, List.mem_append, List.mem_singleton] at hc
      rcases hc with hc | hc
      · have hdiv : n / 16 ≤ f := by
          have : n / 16 < n := Nat.div_lt_self (by omega) (by omega)
          omega
        exact ih (n / 16) hdiv c hc
      · subst hc
        exact isLowerHexDigit_digitChar _ (Nat.mod_lt _ (by omega))

theorem get_glyphs_vals (absl : String → String) (D : List String) :
    (get_glyphs absl D).map Prod.snd = (sortIcons D).map absl := by
  rw [get_glyphs_eq_zip, List.map_snd_zip]
  simp

theorem add_font_glyphs_append (f : Font) :
    ∀ (g : List (String × String)) (codes : List Nat),
      (g.map fun kv => pyIntBase0 kv.1) = codes.map some →
      add_font_glyphs f g = some { f with chars := f.chars ++ (codes.zip (g.map Prod.snd)).map (fun cp => GlyphSlot.mk cp.1 cp.2 IMPORT_OPTIONS (pathStem cp.2)) } := by
  intro g
  induction g generalizing f with
  | nil =>
    intro codes h
    cases codes with
    | nil => simp [add_font_glyphs]
    | cons c cs => simp at h
  | cons kv rest ih =>
    intro codes h
    cases codes with
    | nil => simp at h
    | cons c cs =>
      simp only [List.map_cons, List.cons.injEq] at h
      show (match pyIntBase0 kv.1 with
        | none => none
        | some code => add_font_glyphs _ rest) = _
      rw [h.1]
      show add_font_glyphs _ rest = _
      rw [ih _ cs h.2]
      simp [List.append_assoc]

/-- C10: the glyph dict iterates in insertion order, which is ascending
code-point order: parsing each key with `int(·, base=0)` recovers exactly the
contiguous ascending codes `0xE900, …`; every key is the string `0x` followed
by lowercase hex digits, round-tripping through the parser;
`add_font_glyphs` therefore succeeds and appends the font's glyph slots in
that same ascending order; and the demo-HTML fragment list and CSS rule list
are one-to-one maps over the dict in its iteration order. -/
theorem C10_iteration_order (absl : String → String) (D : List String) (f : Font) :
    ((get_glyphs absl D).map fun kv => pyIntBase0 kv.1) =
      (List.range' INITIAL_UTF_GARBAGE_VALUE D.length).map some
    ∧ List.Pairwise (· < ·) (List.range' INITIAL_UTF_GARBAGE_VALUE D.length)
    ∧ (∀ kv ∈ get_glyphs absl D, ∃ n : Nat, kv.1 = pyHex n
        ∧ pyIntBase0 kv.1 = some n
        ∧ kv.1.toList = '0' :: 'x' :: toDigitsBase 16 n
        ∧ ∀ c ∈ toDigitsBase 16 n, isLowerHexDigit c = true)
    ∧ add_font_glyphs f (get_glyphs absl D) =
        some { f with chars := f.chars ++ ((List.range' INITIAL_UTF_GARBAGE_VALUE D.length).zip ((sortIcons D).map absl)).map (fun cp => GlyphSlot.mk cp.1 cp.2 IMPORT_OPTIONS (pathStem cp.2)) }
    ∧ div_list (get_glyphs absl D) =
        (get_glyphs absl D).map (fun kv => formatTemplatedHtml (pathStem kv.2) (stripOx kv.1))
    ∧ classes_list (get_glyphs absl D) =
        (get_glyphs absl D).map (fun kv => formatTemplatedCss (pathStem kv.2) (stripOx kv.1)) := by
  have hkeys : ((get_glyphs absl D).map fun kv => pyIntBase0 kv.1) =
      (List.range' INITIAL_UTF_GARBAGE_VALUE D.length).map some := by
    have h1 : ((get_glyphs absl D).map fun kv => pyIntBase0 kv.1) =
        ((get_glyphs absl D).map Prod.fst).map pyIntBase0 := by
      rw [List.map_map]; rfl
    rw [h1, get_glyphs_keys, List.map_map]
    exact List.map_congr_left fun n _ => pyIntBase0_pyHex n
  refine ⟨hkeys, List.pairwise_lt_range' _ _, ?_, ?_, rfl, rfl⟩
  · intro kv hkv
    have hmem : kv.1 ∈ (get_glyphs absl D).map Prod.fst := List.mem_map_of_mem Prod.fst hkv
    rw [get_glyphs_keys] at hmem
    rcases List.mem_map.mp hmem with ⟨n, _, hn⟩
    refine ⟨n, hn.symm, ?_, ?_, toDigitsAux16_lower n n le_rfl⟩
    · rw [← hn]; exact pyIntBase0_pyHex n
    · rw [← hn]; rfl
  · have := add_font_glyphs_append f (get_glyphs absl D)
      (List.range' INITIAL_UTF_GARBAGE_VALUE D.length) hkeys
    rw [this, get_glyphs_vals]

/-- Witness for C10: two icons (given out of order) parse back to the
ascending codes `0xe900`, `0xe901`; the key `0xe900` has the claimed shape. -/
theorem C10_iteration_order_witness :
    ((get_glyphs (fun s => "/w/" ++ s) ["b.svg", "a.svg"]).map fun kv => pyIntBase0 kv.1) =
      [some 0xE900, some 0xE901]
    ∧ ∃ n : Nat, (("0xe900", "/w/a.svg") : String × String).1 = pyHex n
        ∧ pyIntBase0 (("0xe900", "/w/a.svg") : String × String).1 = some n
        ∧ (("0xe900", "/w/a.svg") : String × String).1.toList =
            '0' :: 'x' :: toDigitsBase 16 n
        ∧ ∀ c ∈ toDigitsBase 16 n, isLowerHexDigit c = true :=
  ⟨((C10_iteration_order (fun s => "/w/" ++ s) ["b.svg", "a.svg"] emptyFont).1).trans
      (by decide),
    (C10_iteration_order (fun s => "/w/" ++ s) ["b.svg", "a.svg"] emptyFont).2.2.1
      ("0xe900", "/w/a.svg") (by decide)⟩
